import Mathlib

/-!
Shallow embedding of `ppcls/utils/model_zoo.py` (PaddleClas model-zoo
fetch / download / extract / merge pipeline) and proofs about it.

The embedding models:
* `strFind`             — Python `str.find` (index of first occurrence or -1);
* a flat filesystem `FS` (paths to file contents, plus a set of directories)
  used by `_download` and `get`;
* a directory-tree filesystem `FSNode` used by `_move_and_merge_tree`
  and `_decompress`;
* the HTTP layer as a function from attempt number to a `Response`,
  and the tar/zip libraries as abstract extraction functions
  (`extractall` parameters), since `requests`, `tarfile` and `zipfile`
  are external to the repository.
-/

namespace ModelZoo

/-! ### Python `str.find`, modelled on character lists -/

/-- Model of Python `str.find` on `List Char`: index of the first occurrence
of `needle` in `hay`, or `-1` when absent. -/
def listFind : List Char → List Char → Int
  | [], needle => if needle.isPrefixOf [] then 0 else -1
  | a :: t, needle =>
    if needle.isPrefixOf (a :: t) then 0
    else if listFind t needle < 0 then -1 else listFind t needle + 1

/-- Model of Python `str.find` on `String`. -/
def strFind (s sub : String) : Int :=
  listFind s.data sub.data

/-! ### Flat filesystem model (used by `_download` and `get`)

Paths are plain strings; `files` maps a path to the content of the regular
file there (or `none`), `dirs` records which paths are directories.
`os.path.join(path, fname)` is modelled as `path ++ "/" ++ fname`. -/

structure FS where
  files : String → Option String
  dirs : String → Bool

/-- Model of `os.path.exists`: true when the path is a regular file or a directory. -/
def FS.pathExists (fs : FS) (p : String) : Bool :=
  fs.dirs p || (fs.files p).isSome

/-- Model of `os.makedirs(p)`: the path becomes a directory. -/
def FS.makedirs (fs : FS) (p : String) : FS :=
  { fs with dirs := fun q => if q = p then true else fs.dirs q }

/-- Model of `open(p, 'wb')` plus writing the whole body: the file at `p` now holds `c`. -/
def FS.writeFile (fs : FS) (p c : String) : FS :=
  { fs with files := fun q => if q = p then some c else fs.files q }

/-- Model of `shutil.move(src, dst)` for a regular file onto a non-directory
destination: `src` disappears, `dst` holds `src`'s former content. -/
def FS.moveFile (fs : FS) (src dst : String) : FS :=
  { fs with
    files := fun q =>
      if q = dst then fs.files src
      else if q = src then none
      else fs.files q }

/-- Scanner for `osPathSplitLast`: walk the characters keeping the segment
read since the last `/` (in reverse); a `/` starts a fresh segment. -/
def lastSegAux : List Char → List Char → List Char
  | [], cur => cur.reverse
  | c :: rest, cur =>
    if c = '/' then lastSegAux rest [] else lastSegAux rest (c :: cur)

/-- Model of `os.path.split(s)[-1]`: the part after the last `/` (the whole string
when it has no `/`). -/
def osPathSplitLast (s : String) : String :=
  String.mk (lastSegAux s.data [])

/-! ### The downloader `_download` -/

/-- The constant `DOWNLOAD_RETRY_LIMIT` from the source. -/
def DOWNLOAD_RETRY_LIMIT : Nat := 3

/-- An HTTP response: status code and full body (the concatenation of the
streamed chunks; chunking is irrelevant to the final bytes written). -/
structure Response where
  status : Nat
  body : String

/-- Observable filesystem/network events issued by `_download`, in order. -/
inductive Ev where
  | mkdirs (p : String)
  | getReq (n : Nat)
  | write (p c : String)
  | move (src dst : String)
deriving DecidableEq, Repr

/-- How a `_download` call ends: normal return of the full path, or one of
the two exceptions `UrlError` / `RetryError` propagating. -/
inductive DLResult where
  | ok (fullname : String)
  | urlError (url : String) (code : Nat)
  | retryError (url : String) (times : Nat)
deriving DecidableEq, Repr

/-- Result of running `_download`: outcome, final filesystem, number of
`requests.get` calls issued, and the ordered event trace. -/
structure DLOut where
  result : DLResult
  fs : FS
  gets : Nat
  events : List Ev

/-- The `while not os.path.exists(fullname)` loop of `_download`.
`resp n` is the response to the `n`-th GET (0-based); `gets` counts GETs
issued so far and indexes `resp`. `budget` is
`DOWNLOAD_RETRY_LIMIT - retry_cnt`: the source increments `retry_cnt` from
0 at the top of each iteration and raises `RetryError` exactly when
`retry_cnt < DOWNLOAD_RETRY_LIMIT` fails, which is `budget = 0` here. -/
def downloadLoop (resp : Nat → Response) (url fullname : String)
    (budget : Nat) (fs : FS) (gets : Nat) (events : List Ev) : DLOut :=
  if fs.pathExists fullname then
    { result := .ok fullname, fs := fs, gets := gets, events := events }
  else
    match budget with
    | 0 =>
      { result := .retryError url DOWNLOAD_RETRY_LIMIT, fs := fs,
        gets := gets, events := events }
    | b + 1 =>
      if (resp gets).status ≠ 200 then
        { result := .urlError url (resp gets).status, fs := fs,
          gets := gets + 1, events := events ++ [.getReq gets] }
      else
        downloadLoop resp url fullname b
          ((fs.writeFile (fullname ++ "_tmp") (resp gets).body).moveFile
            (fullname ++ "_tmp") fullname)
          (gets + 1)
          (events ++ [.getReq gets, .write (fullname ++ "_tmp") (resp gets).body,
                      .move (fullname ++ "_tmp") fullname])

/-- Model of `_download(url, path)`: ensure `path` exists, derive the local filename
from the URL's last path segment, and run the retry loop with the full
retry budget (`retry_cnt = 0`). -/
def _download (resp : Nat → Response) (url path : String) (fs : FS) : DLOut :=
  let fname := osPathSplitLast url
  let fullname := path ++ "/" ++ fname
  if fs.pathExists path then
    downloadLoop resp url fullname DOWNLOAD_RETRY_LIMIT fs 0 []
  else
    downloadLoop resp url fullname DOWNLOAD_RETRY_LIMIT (fs.makedirs path) 0
      [.mkdirs path]

/-- Model of `_get_url(architecture)`. -/
def _get_url (architecture : String) : String :=
  "https://paddle-imagenet-models-name.bj.bcebos.com/" ++
    (architecture ++ "_pretrained.tar")

/-! ### Directory-tree filesystem model (used by `_move_and_merge_tree`
and `_decompress`)

A node is a regular file with its content, or a directory with its named
entries. Real directories have pairwise-distinct entry names; the
operations below preserve that and look up the first matching name. -/

inductive FSNode where
  | file (content : String)
  | dir (entries : List (String × FSNode))

/-- Entry of a directory listing under a given name (`os.path.isdir` /
`os.path.isfile` / `os.path.exists` on `dir/name` are reads of this). -/
def lookupEntry : List (String × FSNode) → String → Option FSNode
  | [], _ => none
  | (k, v) :: rest, name => if k = name then some v else lookupEntry rest name

/-- Replace the entry under `name` (or append it when absent). -/
def setEntry : List (String × FSNode) → String → FSNode → List (String × FSNode)
  | [], name, node => [(name, node)]
  | (k, v) :: rest, name, node =>
    if k = name then (k, node) :: rest else (k, v) :: setEntry rest name node

/-- Remove the entry under `name` (`os.remove` / `shutil.rmtree`). -/
def removeEntry : List (String × FSNode) → String → List (String × FSNode)
  | [], _ => []
  | (k, v) :: rest, name =>
    if k = name then rest else (k, v) :: removeEntry rest name

/-- Model of `shutil.move(src, dst)`: `name` is `src`'s basename and `dst`
the node currently at the destination path (`none` when absent). Moving
onto an existing regular file overwrites it (`os.rename`); moving a
directory onto a file fails; moving into an existing directory relocates
the source to `dst/name`, failing when that path is already taken. -/
def shutilMove (name : String) (src : FSNode) (dst : Option FSNode) :
    Except String FSNode :=
  match dst with
  | none => .ok src
  | some (.file _) =>
    match src with
    | .file c => .ok (.file c)
    | .dir _ => .error "shutil.move: cannot rename a directory over a file"
  | some (.dir es) =>
    match lookupEntry es name with
    | some _ => .error "shutil.move: destination path already exists"
    | none => .ok (.dir (es ++ [(name, src)]))

mutual

/-- Model of `_move_and_merge_tree(src, dst)`: `name` is `src`'s basename and `dst`
the node currently at the destination path (`none` when
`os.path.exists(dst)` is false). Returns the node left at the destination
path; the source is consumed (moved away) on success. -/
def _move_and_merge_tree (name : String) (src : FSNode) (dst : Option FSNode) :
    Except String FSNode :=
  match dst with
  | none => .ok src
  | some d =>
    match src with
    | .file c => shutilMove name (.file c) (some d)
    | .dir es =>
      match d with
      | .file c =>
        match es with
        | [] => .ok (.file c)
        | _ :: _ => .error "shutil.move: destination parent is not a directory"
      | .dir des => (mergeEntries es des).map FSNode.dir

/-- The `for fp in os.listdir(src)` loop of `_move_and_merge_tree`: fold
the source's entries into the destination directory's entries. -/
def mergeEntries (srcEntries des : List (String × FSNode)) :
    Except String (List (String × FSNode)) :=
  match srcEntries with
  | [] => .ok des
  | (fp, node) :: rest =>
    match node with
    | .dir sub =>
      match lookupEntry des fp with
      | some (.dir dsub) =>
        match _move_and_merge_tree fp (.dir sub) (some (.dir dsub)) with
        | .error e => .error e
        | .ok merged => mergeEntries rest (setEntry des fp merged)
      | other =>
        match shutilMove fp (.dir sub) other with
        | .error e => .error e
        | .ok merged => mergeEntries rest (setEntry des fp merged)
    | .file c =>
      match lookupEntry des fp with
      | some (.file _) => mergeEntries rest des
      | other =>
        match shutilMove fp (.file c) other with
        | .error e => .error e
        | .ok merged => mergeEntries rest (setEntry des fp merged)

end

/-! ### The extractor `_decompress` -/

/-- How a `_decompress` call fails: the `TypeError` for an unsupported
archive format, or an I/O-layer failure (tarfile/zipfile/shutil). -/
inductive DecompErr where
  | typeError (msg : String)
  | ioError (msg : String)

/-- Result of running `_decompress`: outcome, and the entries of the
archive's containing directory afterwards. -/
structure DecompOut where
  result : Except DecompErr Unit
  entries : List (String × FSNode)

/-- The defensive staging cleanup at the start of `_decompress`:
`if os.path.isdir(fpath_tmp): shutil.rmtree(fpath_tmp); os.makedirs(fpath_tmp)`. -/
def cleanupTmp (d : List (String × FSNode)) : List (String × FSNode) :=
  match lookupEntry d "tmp" with
  | some (.dir _) => setEntry d "tmp" (.dir [])
  | _ => d

/-- The `for f in os.listdir(fpath_tmp)` merge loop of `_decompress`. -/
def mergeAll : List (String × FSNode) → List (String × FSNode) →
    Except String (List (String × FSNode))
  | [], acc => .ok acc
  | (f, node) :: rest, acc =>
    match _move_and_merge_tree f node (lookupEntry acc f) with
    | .error e => .error e
    | .ok merged => mergeAll rest (setEntry acc f merged)

/-- The unpack-then-merge-then-cleanup tail of `_decompress`, shared by the
tar and zip branches; `extractall content` gives the top-level entries the
archive library unpacks from the archive's bytes. -/
def extractAndMerge (extractall : String → List (String × FSNode))
    (aname : String) (d : List (String × FSNode)) : DecompOut :=
  match lookupEntry d aname with
  | some (.file content) =>
    match lookupEntry d "tmp" with
    | some (.file _) =>
      ⟨.error (.ioError "extractall: staging path is a regular file"), d⟩
    | _ =>
      let unpacked := extractall content
      let d2 := setEntry d "tmp" (.dir unpacked)
      match mergeAll unpacked d2 with
      | .error e => ⟨.error (.ioError e), d2⟩
      | .ok merged => ⟨.ok (), removeEntry (removeEntry merged "tmp") aname⟩
  | _ => ⟨.error (.ioError "tarfile/zipfile: archive is not a regular file"), d⟩

/-- Model of `_decompress(fname)`: `d` holds the entries of the archive's containing
directory `os.path.split(fname)[0]`; `tarEx` and `zipEx` model `tarfile`
and `zipfile` extraction from the archive's bytes. -/
def _decompress (tarEx zipEx : String → List (String × FSNode))
    (fname : String) (d : List (String × FSNode)) : DecompOut :=
  let aname := osPathSplitLast fname
  let d1 := cleanupTmp d
  if 0 ≤ strFind fname "tar" then extractAndMerge tarEx aname d1
  else if 0 ≤ strFind fname "zip" then extractAndMerge zipEx aname d1
  else ⟨.error (.typeError ("Unsupport compress file type " ++ fname)), d1⟩

/-! ### The public entry point `get` -/

/-- How a `get` call ends. -/
inductive GetResult where
  | ok
  | dlFailed (r : DLResult)
  | decompFailed (e : DecompErr)

/-- Result of running `get` on the flat filesystem model. `extracted`
records whether `_decompress` was invoked. -/
structure GetOut where
  result : GetResult
  fs : FS
  gets : Nat
  extracted : Bool

/-- Model of `get(architecture, path, decompress)`. Extraction rewrites the flat
filesystem in a way the flat model does not spell out, so it is abstracted
as the parameter `decompFn`; with `decompress = false` it is never
consulted. -/
def get (resp : Nat → Response) (decompFn : String → FS → Except DecompErr FS)
    (architecture path : String) (decompress : Bool) (fs : FS) : GetOut :=
  let url := _get_url architecture
  let out := _download resp url path fs
  match out.result with
  | .ok fname =>
    if decompress then
      match decompFn fname out.fs with
      | .ok fs' => ⟨.ok, fs', out.gets, true⟩
      | .error e => ⟨.decompFailed e, out.fs, out.gets, true⟩
    else ⟨.ok, out.fs, out.gets, false⟩
  | r => ⟨.dlFailed r, out.fs, out.gets, false⟩

/-- The empty filesystem: no files, no directories. -/
def emptyFS : FS := ⟨fun _ => none, fun _ => false⟩

/-! ### Properties of the substring search -/

/-- The function `listFind` is nonnegative exactly when the needle occurs as an infix. -/
theorem listFind_nonneg_iff (hay needle : List Char) :
    0 ≤ listFind hay needle ↔ needle <:+: hay := by
  induction hay with
  | nil =>
    rw [listFind]
    by_cases h : needle.isPrefixOf [] = true
    · rw [if_pos h]
      have hp : needle <+: ([] : List Char) := List.isPrefixOf_iff_prefix.mp h
      have : needle = [] := List.prefix_nil.mp hp
      subst this
      simp
    · rw [if_neg h, List.infix_nil]
      have hne : needle ≠ [] := by
        intro he; subst he; simp [List.isPrefixOf] at h
      constructor
      · intro hc; exact absurd hc (by decide)
      · intro he; exact absurd he hne
  | cons a t ih =>
    rw [listFind]
    by_cases h : needle.isPrefixOf (a :: t) = true
    · rw [if_pos h]
      have hp : needle <+: a :: t := List.isPrefixOf_iff_prefix.mp h
      constructor
      · intro _; exact hp.isInfix
      · intro _; omega
    · rw [if_neg h]
      have hnp : ¬ needle <+: a :: t := by
        intro hp
        exact h (List.isPrefixOf_iff_prefix.mpr hp)
      constructor
      · intro hc
        by_cases hr : listFind t needle < 0
        · rw [if_pos hr] at hc
          exact absurd hc (by decide)
        · have : needle <:+: t := ih.mp (by omega)
          exact List.infix_cons_iff.mpr (Or.inr this)
      · intro hc
        rcases List.infix_cons_iff.mp hc with hp | hi
        · exact absurd hp hnp
        · have h0 : 0 ≤ listFind t needle := ih.mpr hi
          rw [if_neg (by omega)]
          omega

/-- The function `strFind` is nonnegative exactly when `sub` occurs as a substring. -/
theorem strFind_nonneg_iff (s sub : String) :
    0 ≤ strFind s sub ↔ sub.data <:+: s.data :=
  listFind_nonneg_iff s.data sub.data

/-! ### Helper lemmas about directory listings -/

theorem lookupEntry_setEntry_self (d : List (String × FSNode)) (k : String)
    (v : FSNode) : lookupEntry (setEntry d k v) k = some v := by
  induction d with
  | nil => simp [setEntry, lookupEntry]
  | cons hd rest ih =>
    obtain ⟨k', v'⟩ := hd
    by_cases h : k' = k
    · simp [setEntry, lookupEntry, h]
    · simp [setEntry, lookupEntry, h, ih]

theorem lookupEntry_setEntry_other (d : List (String × FSNode)) (k k' : String)
    (v : FSNode) (hne : k' ≠ k) :
    lookupEntry (setEntry d k v) k' = lookupEntry d k' := by
  induction d with
  | nil =>
    simp only [setEntry, lookupEntry]
    rw [if_neg (fun hh => hne hh.symm)]
  | cons hd rest ih =>
    obtain ⟨k₀, v₀⟩ := hd
    by_cases h : k₀ = k
    · subst h
      simp only [setEntry, if_pos rfl, lookupEntry]
      rw [if_neg (fun hh => hne hh.symm), if_neg (fun hh => hne hh.symm)]
    · simp only [setEntry, if_neg h, lookupEntry]
      by_cases h' : k₀ = k'
      · rw [if_pos h', if_pos h']
      · rw [if_neg h', if_neg h', ih]

/-- If the destination directory already holds a regular file under `k`,
the merge loop of `_move_and_merge_tree` never changes that entry. -/
theorem mergeEntries_preserves_file (es : List (String × FSNode))
    (des des' : List (String × FSNode)) (k c : String)
    (hd : lookupEntry des k = some (.file c))
    (h : mergeEntries es des = .ok des') :
    lookupEntry des' k = some (.file c) := by
  induction es generalizing des with
  | nil =>
    rw [mergeEntries] at h
    cases h
    exact hd
  | cons hd0 rest ih =>
    obtain ⟨fp, node⟩ := hd0
    have hfp : fp = k → lookupEntry des fp = some (.file c) := by
      intro he; rw [he]; exact hd
    cases node with
    | dir sub =>
      rw [mergeEntries] at h
      cases hl : lookupEntry des fp with
      | none =>
        rw [hl] at h
        simp only [shutilMove] at h
        have hne : k ≠ fp := by
          intro he; rw [hfp he.symm] at hl; cases hl
        exact ih (setEntry des fp (.dir sub))
          (by rw [lookupEntry_setEntry_other des fp k _ hne]; exact hd) h
      | some dnode =>
        cases dnode with
        | file c0 =>
          rw [hl] at h
          simp only [shutilMove] at h
          cases h
        | dir dsub =>
          rw [hl] at h
          have hne : k ≠ fp := by
            intro he; rw [hfp he.symm] at hl; cases hl
          simp only at h
          cases hm : _move_and_merge_tree fp (.dir sub) (some (.dir dsub)) with
          | error e => rw [hm] at h; cases h
          | ok merged =>
            rw [hm] at h
            exact ih (setEntry des fp merged)
              (by rw [lookupEntry_setEntry_other des fp k _ hne]; exact hd) h
    | file c0 =>
      rw [mergeEntries] at h
      cases hl : lookupEntry des fp with
      | none =>
        rw [hl] at h
        simp only [shutilMove] at h
        have hne : k ≠ fp := by
          intro he; rw [hfp he.symm] at hl; cases hl
        exact ih (setEntry des fp (.file c0))
          (by rw [lookupEntry_setEntry_other des fp k _ hne]; exact hd) h
      | some dnode =>
        cases dnode with
        | file c1 =>
          rw [hl] at h
          exact ih des hd h
        | dir dsub =>
          rw [hl] at h
          have hne : k ≠ fp := by
            intro he; rw [hfp he.symm] at hl; cases hl
          simp only [shutilMove] at h
          cases hl2 : lookupEntry dsub fp with
          | none =>
            rw [hl2] at h
            simp only at h
            exact ih (setEntry des fp (.dir (dsub ++ [(fp, .file c0)])))
              (by rw [lookupEntry_setEntry_other des fp k _ hne]; exact hd) h
          | some w =>
            rw [hl2] at h
            simp only at h
            cases h

/-! ### Claims C4 and C5: merge precedence and recursive merge -/

/-- C4: merging a source directory containing `a.txt` into a destination
directory that already contains `a.txt` leaves the destination's original
`a.txt` content unchanged; merging the same source into a destination path
that does not exist makes the source's `a.txt` content appear there. -/
theorem merge_precedence (name ca cb : String)
    (es des des' : List (String × FSNode))
    (h1 : lookupEntry es "a.txt" = some (.file ca))
    (h2 : lookupEntry des "a.txt" = some (.file cb)) :
    (_move_and_merge_tree name (.dir es) (some (.dir des)) = .ok (.dir des') →
      lookupEntry des' "a.txt" = some (.file cb)) ∧
    (_move_and_merge_tree name (.dir es) none = .ok (.dir es) ∧
      lookupEntry es "a.txt" = some (.file ca)) := by
  refine ⟨?_, rfl, h1⟩
  intro h
  rw [_move_and_merge_tree] at h
  cases hm : mergeEntries es des with
  | error e =>
    rw [hm] at h
    simp only [Except.map] at h
    exact Except.noConfusion h
  | ok l =>
    rw [hm] at h
    simp only [Except.map, Except.ok.injEq, FSNode.dir.injEq] at h
    subst h
    exact mergeEntries_preserves_file es des _ "a.txt" cb h2 hm

/-- C4 witness: concrete instance with source `a.txt = "new"`, destination
`a.txt = "old"`: the destination keeps `"old"`. -/
theorem merge_precedence_witness :
    lookupEntry [("a.txt", FSNode.file "old")] "a.txt" =
      some (FSNode.file "old") :=
  (merge_precedence "src" "new" "old" [("a.txt", .file "new")]
    [("a.txt", .file "old")] [("a.txt", .file "old")] rfl rfl).1 rfl

/-- C5: merging source tree `{sub/x.txt, sub/y.txt}` into destination tree
`{sub/x.txt}` recurses into the same-named subdirectory and yields
`{sub/x.txt (original), sub/y.txt (from source)}`, for all file contents. -/
theorem recursive_merge (c0 c1 c2 : String) :
    _move_and_merge_tree "src"
        (.dir [("sub", .dir [("x.txt", .file c1), ("y.txt", .file c2)])])
        (some (.dir [("sub", .dir [("x.txt", .file c0)])])) =
      .ok (.dir [("sub", .dir [("x.txt", .file c0), ("y.txt", .file c2)])]) :=
  rfl

/-! ### Characterization of `downloadLoop` and `_download` -/

theorem downloadLoop_of_exists (resp : Nat → Response) (url full : String)
    (budget : Nat) (fs : FS) (g : Nat) (ev : List Ev)
    (h : fs.pathExists full = true) :
    downloadLoop resp url full budget fs g ev = ⟨.ok full, fs, g, ev⟩ := by
  unfold downloadLoop
  simp [h]

theorem downloadLoop_of_fail (resp : Nat → Response) (url full : String)
    (b : Nat) (fs : FS) (g : Nat) (ev : List Ev)
    (h : fs.pathExists full = false)
    (hs : (resp g).status ≠ 200) :
    downloadLoop resp url full (b + 1) fs g ev =
      ⟨.urlError url (resp g).status, fs, g + 1, ev ++ [.getReq g]⟩ := by
  unfold downloadLoop
  simp [h, hs]

theorem downloadLoop_of_success (resp : Nat → Response) (url full : String)
    (b : Nat) (fs : FS) (g : Nat) (ev : List Ev)
    (h : fs.pathExists full = false)
    (hs : (resp g).status = 200) :
    downloadLoop resp url full (b + 1) fs g ev =
      ⟨.ok full,
       (fs.writeFile (full ++ "_tmp") (resp g).body).moveFile
         (full ++ "_tmp") full,
       g + 1,
       ev ++ [.getReq g, .write (full ++ "_tmp") (resp g).body,
              .move (full ++ "_tmp") full]⟩ := by
  have hstep : downloadLoop resp url full (b + 1) fs g ev =
      downloadLoop resp url full b
        ((fs.writeFile (full ++ "_tmp") (resp g).body).moveFile
          (full ++ "_tmp") full)
        (g + 1)
        (ev ++ [.getReq g, .write (full ++ "_tmp") (resp g).body,
                .move (full ++ "_tmp") full]) := by
    conv_lhs => unfold downloadLoop
    simp [h, hs]
  rw [hstep]
  apply downloadLoop_of_exists
  simp [FS.pathExists, FS.moveFile, FS.writeFile]

theorem download_char_dir (resp : Nat → Response) (url path : String) (fs : FS)
    (hp : fs.pathExists path = true) :
    (fs.pathExists (path ++ "/" ++ osPathSplitLast url) = true ∧
      _download resp url path fs =
        ⟨.ok (path ++ "/" ++ osPathSplitLast url), fs, 0, []⟩) ∨
    (fs.pathExists (path ++ "/" ++ osPathSplitLast url) = false ∧
      (resp 0).status ≠ 200 ∧
      _download resp url path fs =
        ⟨.urlError url (resp 0).status, fs, 1, [.getReq 0]⟩) ∨
    (fs.pathExists (path ++ "/" ++ osPathSplitLast url) = false ∧
      (resp 0).status = 200 ∧
      _download resp url path fs =
        ⟨.ok (path ++ "/" ++ osPathSplitLast url),
         (fs.writeFile (path ++ "/" ++ osPathSplitLast url ++ "_tmp")
             (resp 0).body).moveFile
           (path ++ "/" ++ osPathSplitLast url ++ "_tmp")
           (path ++ "/" ++ osPathSplitLast url),
         1,
         [.getReq 0,
          .write (path ++ "/" ++ osPathSplitLast url ++ "_tmp") (resp 0).body,
          .move (path ++ "/" ++ osPathSplitLast url ++ "_tmp")
            (path ++ "/" ++ osPathSplitLast url)]⟩) := by
  have hd : _download resp url path fs =
      downloadLoop resp url (path ++ "/" ++ osPathSplitLast url)
        DOWNLOAD_RETRY_LIMIT fs 0 [] := by
    unfold _download
    simp [hp]
  by_cases hfull : fs.pathExists (path ++ "/" ++ osPathSplitLast url) = true
  · exact Or.inl ⟨hfull, by rw [hd, downloadLoop_of_exists _ _ _ _ _ _ _ hfull]⟩
  · rw [Bool.not_eq_true] at hfull
    by_cases hs : (resp 0).status = 200
    · refine Or.inr (Or.inr ⟨hfull, hs, ?_⟩)
      rw [hd, show DOWNLOAD_RETRY_LIMIT = 2 + 1 from rfl,
        downloadLoop_of_success _ _ _ _ _ _ _ hfull hs]
      rfl
    · refine Or.inr (Or.inl ⟨hfull, hs, ?_⟩)
      rw [hd, show DOWNLOAD_RETRY_LIMIT = 2 + 1 from rfl,
        downloadLoop_of_fail _ _ _ _ _ _ _ hfull hs]
      rfl

theorem download_char_mk (resp : Nat → Response) (url path : String) (fs : FS)
    (hp : fs.pathExists path = false) :
    ((fs.makedirs path).pathExists (path ++ "/" ++ osPathSplitLast url) = true ∧
      _download resp url path fs =
        ⟨.ok (path ++ "/" ++ osPathSplitLast url), fs.makedirs path, 0,
         [.mkdirs path]⟩) ∨
    ((fs.makedirs path).pathExists (path ++ "/" ++ osPathSplitLast url) = false ∧
      (resp 0).status ≠ 200 ∧
      _download resp url path fs =
        ⟨.urlError url (resp 0).status, fs.makedirs path, 1,
         [.mkdirs path, .getReq 0]⟩) ∨
    ((fs.makedirs path).pathExists (path ++ "/" ++ osPathSplitLast url) = false ∧
      (resp 0).status = 200 ∧
      _download resp url path fs =
        ⟨.ok (path ++ "/" ++ osPathSplitLast url),
         ((fs.makedirs path).writeFile
             (path ++ "/" ++ osPathSplitLast url ++ "_tmp")
             (resp 0).body).moveFile
           (path ++ "/" ++ osPathSplitLast url ++ "_tmp")
           (path ++ "/" ++ osPathSplitLast url),
         1,
         [.mkdirs path, .getReq 0,
          .write (path ++ "/" ++ osPathSplitLast url ++ "_tmp") (resp 0).body,
          .move (path ++ "/" ++ osPathSplitLast url ++ "_tmp")
            (path ++ "/" ++ osPathSplitLast url)]⟩) := by
  have hd : _download resp url path fs =
      downloadLoop resp url (path ++ "/" ++ osPathSplitLast url)
        DOWNLOAD_RETRY_LIMIT (fs.makedirs path) 0 [.mkdirs path] := by
    unfold _download
    simp [hp]
  by_cases hfull :
      (fs.makedirs path).pathExists (path ++ "/" ++ osPathSplitLast url) = true
  · exact Or.inl ⟨hfull, by rw [hd, downloadLoop_of_exists _ _ _ _ _ _ _ hfull]⟩
  · rw [Bool.not_eq_true] at hfull
    by_cases hs : (resp 0).status = 200
    · refine Or.inr (Or.inr ⟨hfull, hs, ?_⟩)
      rw [hd, show DOWNLOAD_RETRY_LIMIT = 2 + 1 from rfl,
        downloadLoop_of_success _ _ _ _ _ _ _ hfull hs]
      rfl
    · refine Or.inr (Or.inl ⟨hfull, hs, ?_⟩)
      rw [hd, show DOWNLOAD_RETRY_LIMIT = 2 + 1 from rfl,
        downloadLoop_of_fail _ _ _ _ _ _ _ hfull hs]
      rfl

/-! ### Path-distinctness and filesystem computation lemmas -/

theorem ne_of_length_ne {a b : String} (h : a.length ≠ b.length) : a ≠ b :=
  fun he => h (he ▸ rfl)

theorem fullname_length (path s : String) :
    (path ++ "/" ++ s).length = path.length + s.length + 1 := by
  rw [String.length_append, String.length_append]
  have h1 : "/".length = 1 := rfl
  omega

theorem tmpname_length (full : String) :
    (full ++ "_tmp").length = full.length + 4 := by
  rw [String.length_append]
  have h1 : "_tmp".length = 4 := rfl
  omega

theorem fullname_ne_path (path s : String) : path ++ "/" ++ s ≠ path :=
  ne_of_length_ne (by rw [fullname_length]; omega)

theorem tmpname_ne_full (full : String) : full ++ "_tmp" ≠ full :=
  ne_of_length_ne (by rw [tmpname_length]; omega)

theorem tmpname_ne_path (path s : String) : path ++ "/" ++ s ++ "_tmp" ≠ path :=
  ne_of_length_ne (by rw [tmpname_length, fullname_length]; omega)

theorem makedirs_pathExists_fullname (fs : FS) (path s : String) :
    (fs.makedirs path).pathExists (path ++ "/" ++ s) =
      fs.pathExists (path ++ "/" ++ s) := by
  unfold FS.makedirs FS.pathExists
  simp only
  rw [if_neg (fullname_ne_path path s)]

theorem writeMove_files_full (fs : FS) (full body : String) :
    ((fs.writeFile (full ++ "_tmp") body).moveFile (full ++ "_tmp") full).files
      full = some body := by
  simp [FS.moveFile, FS.writeFile]

theorem writeMove_files_tmp (fs : FS) (full body : String) :
    ((fs.writeFile (full ++ "_tmp") body).moveFile (full ++ "_tmp") full).files
      (full ++ "_tmp") = none := by
  simp [FS.moveFile, FS.writeFile, tmpname_ne_full full]

theorem writeMove_files_other (fs : FS) (full body q : String)
    (h1 : q ≠ full) (h2 : q ≠ full ++ "_tmp") :
    ((fs.writeFile (full ++ "_tmp") body).moveFile (full ++ "_tmp") full).files
      q = fs.files q := by
  simp [FS.moveFile, FS.writeFile, h1, h2]

theorem writeMove_dirs (fs : FS) (full body : String) :
    ((fs.writeFile (full ++ "_tmp") body).moveFile (full ++ "_tmp") full).dirs
      = fs.dirs := rfl

/-! ### Claims C9 and C1: the retry loop -/

/-- C9: under the model (arbitrary per-attempt responses, deterministic
filesystem operations), the `RetryError` branch of `_download` is
unreachable and `_download` never issues more than one GET: every loop
iteration either raises `UrlError` (non-200) or commits the final file via
the move (200), which ends the loop. -/
theorem download_no_retryError (resp : Nat → Response) (url path : String)
    (fs : FS) :
    (∀ u t, (_download resp url path fs).result ≠ DLResult.retryError u t) ∧
    (_download resp url path fs).gets ≤ 1 := by
  by_cases hp : fs.pathExists path = true
  · rcases download_char_dir resp url path fs hp with
      ⟨_, h⟩ | ⟨_, _, h⟩ | ⟨_, _, h⟩ <;>
    · rw [h]
      exact ⟨fun u t hc => by simp at hc, by simp⟩
  · rw [Bool.not_eq_true] at hp
    rcases download_char_mk resp url path fs hp with
      ⟨_, h⟩ | ⟨_, _, h⟩ | ⟨_, _, h⟩ <;>
    · rw [h]
      exact ⟨fun u t hc => by simp at hc, by simp⟩

/-- C1 counterexample: against the claim "a URL whose every GET yields a
non-200 response causes exactly 3 GET attempts and then RetryError", a
concrete all-404 run performs exactly ONE GET and raises `UrlError`:
the unhandled `UrlError` aborts `_download` before any retry. -/
theorem retry_exhaustion_counterexample :
    (_download (fun _ => ⟨404, ""⟩) "https://host/model.tar" "/p"
        emptyFS).result = DLResult.urlError "https://host/model.tar" 404 ∧
    (_download (fun _ => ⟨404, ""⟩) "https://host/model.tar" "/p"
        emptyFS).gets = 1 :=
  ⟨rfl, rfl⟩

/-- C1 (amended): for a URL whose every GET attempt yields a non-200
response, and a destination where the final file is not already present,
`_download` performs exactly one GET attempt and raises `UrlError` with
the first response's status; `RetryError` is never raised. -/
theorem retry_exhaustion_amended (resp : Nat → Response) (url path : String)
    (fs : FS)
    (hfail : ∀ n, (resp n).status ≠ 200)
    (hfile : fs.files (path ++ "/" ++ osPathSplitLast url) = none)
    (hdir : fs.dirs (path ++ "/" ++ osPathSplitLast url) = false) :
    (_download resp url path fs).result = .urlError url (resp 0).status ∧
    (_download resp url path fs).gets = 1 ∧
    ∀ u t, (_download resp url path fs).result ≠ DLResult.retryError u t := by
  have hex : fs.pathExists (path ++ "/" ++ osPathSplitLast url) = false := by
    simp [FS.pathExists, hfile, hdir]
  by_cases hp : fs.pathExists path = true
  · rcases download_char_dir resp url path fs hp with
      ⟨h1, _⟩ | ⟨_, _, h⟩ | ⟨_, hs, _⟩
    · rw [hex] at h1; cases h1
    · rw [h]
      exact ⟨rfl, rfl, fun u t hc => by simp at hc⟩
    · exact absurd hs (hfail 0)
  · rw [Bool.not_eq_true] at hp
    have hex' : (fs.makedirs path).pathExists
        (path ++ "/" ++ osPathSplitLast url) = false := by
      rw [makedirs_pathExists_fullname]; exact hex
    rcases download_char_mk resp url path fs hp with
      ⟨h1, _⟩ | ⟨_, _, h⟩ | ⟨_, hs, _⟩
    · rw [hex'] at h1; cases h1
    · rw [h]
      exact ⟨rfl, rfl, fun u t hc => by simp at hc⟩
    · exact absurd hs (hfail 0)

/-- C1 (amended) witness at a concrete all-404 input. -/
theorem retry_exhaustion_amended_witness :
    (_download (fun _ => ⟨404, "x"⟩) "https://host/m.tar" "/dest"
        emptyFS).result = .urlError "https://host/m.tar" 404 ∧
    (_download (fun _ => ⟨404, "x"⟩) "https://host/m.tar" "/dest"
        emptyFS).gets = 1 ∧
    ∀ u t, (_download (fun _ => ⟨404, "x"⟩) "https://host/m.tar" "/dest"
        emptyFS).result ≠ DLResult.retryError u t :=
  retry_exhaustion_amended (fun _ => ⟨404, "x"⟩) "https://host/m.tar" "/dest"
    emptyFS (fun _ => by show (404 : Nat) ≠ 200; decide) rfl rfl

/-! ### Claim C6: idempotent download -/

/-- C6: if a `_download` call returns normally with path `p`, a second
`_download` with the same URL and destination (any response function)
issues zero GET requests, performs no filesystem operation (the state
passes through unchanged, the event trace is empty) and returns `p`. -/
theorem idempotent_download (resp resp' : Nat → Response) (url path : String)
    (fs : FS) (p : String)
    (h : (_download resp url path fs).result = DLResult.ok p) :
    p = path ++ "/" ++ osPathSplitLast url ∧
    _download resp' url path ((_download resp url path fs).fs) =
      ⟨.ok p, (_download resp url path fs).fs, 0, []⟩ := by
  have second : ∀ fs1 : FS, fs1.pathExists path = true →
      fs1.pathExists (path ++ "/" ++ osPathSplitLast url) = true →
      _download resp' url path fs1 =
        ⟨.ok (path ++ "/" ++ osPathSplitLast url), fs1, 0, []⟩ := by
    intro fs1 hp1 hfull1
    unfold _download
    simp only [hp1, if_true]
    exact downloadLoop_of_exists _ _ _ _ _ _ _ hfull1
  by_cases hp : fs.pathExists path = true
  · rcases download_char_dir resp url path fs hp with
      ⟨hfull, hout⟩ | ⟨_, _, hout⟩ | ⟨hfull, _, hout⟩
    · rw [hout] at h ⊢
      simp only at h ⊢
      cases h
      exact ⟨rfl, second fs hp hfull⟩
    · rw [hout] at h
      simp at h
    · rw [hout] at h ⊢
      simp only at h ⊢
      cases h
      refine ⟨rfl, second _ ?_ ?_⟩
      · rw [show ∀ fs2 : FS, fs2.pathExists path =
            (fs2.dirs path || (fs2.files path).isSome) from fun _ => rfl]
        rw [writeMove_dirs]
        rw [writeMove_files_other fs _ _ path
          (fullname_ne_path path _).symm (tmpname_ne_path path _).symm]
        exact hp
      · simp [FS.pathExists, writeMove_files_full]
  · rw [Bool.not_eq_true] at hp
    rcases download_char_mk resp url path fs hp with
      ⟨hfull, hout⟩ | ⟨_, _, hout⟩ | ⟨hfull, _, hout⟩
    · rw [hout] at h ⊢
      simp only at h ⊢
      cases h
      refine ⟨rfl, second _ ?_ hfull⟩
      simp [FS.pathExists, FS.makedirs]
    · rw [hout] at h
      simp at h
    · rw [hout] at h ⊢
      simp only at h ⊢
      cases h
      refine ⟨rfl, second _ ?_ ?_⟩
      · rw [show ∀ fs2 : FS, fs2.pathExists path =
            (fs2.dirs path || (fs2.files path).isSome) from fun _ => rfl]
        rw [writeMove_dirs]
        simp [FS.makedirs]
      · simp [FS.pathExists, writeMove_files_full]

/-- C6 witness: after a successful concrete download, the second call
returns the same path with zero GETs and an untouched filesystem. -/
theorem idempotent_download_witness :
    (_download (fun _ => ⟨200, "B"⟩) "https://host/m.tar" "/p" emptyFS).result
        = DLResult.ok "/p/m.tar" ∧
    ("/p/m.tar" : String) = "/p" ++ "/" ++ osPathSplitLast "https://host/m.tar" ∧
    _download (fun _ => ⟨500, ""⟩) "https://host/m.tar" "/p"
        ((_download (fun _ => ⟨200, "B"⟩) "https://host/m.tar" "/p" emptyFS).fs) =
      ⟨.ok "/p/m.tar",
       (_download (fun _ => ⟨200, "B"⟩) "https://host/m.tar" "/p" emptyFS).fs,
       0, []⟩ := by
  have h := idempotent_download (fun _ => ⟨200, "B"⟩) (fun _ => ⟨500, ""⟩)
    "https://host/m.tar" "/p" emptyFS "/p/m.tar" (by decide)
  exact ⟨by decide, h.1, h.2⟩

/-! ### Claim C3: atomic promotion -/

theorem writeFile_dirs (fs : FS) (p c : String) :
    (fs.writeFile p c).dirs = fs.dirs := rfl

theorem makedirs_files (fs : FS) (p : String) :
    (fs.makedirs p).files = fs.files := rfl

theorem writeFile_files_other (fs : FS) (p c q : String) (hne : q ≠ p) :
    (fs.writeFile p c).files q = fs.files q := by
  simp [FS.writeFile, hne]

theorem writeFile_pathExists_other (fs : FS) (p c q : String) (hne : q ≠ p) :
    (fs.writeFile p c).pathExists q = fs.pathExists q := by
  simp [FS.pathExists, FS.writeFile, hne]

/-- C3: the response body is written only to the `_tmp` path; the final
path is populated only by the single move, which is the last operation,
after the whole body has been written; in the stopped-before-the-move
state the final path is still absent; and a `_download` run from that
state behaves exactly as one from the original state: same outcome, same
GET count, same directories, and the same files everywhere except possibly
at the `_tmp` path itself. -/
theorem atomic_promotion (resp : Nat → Response) (url path : String)
    (fs : FS) (c : String)
    (hfull : fs.pathExists (path ++ "/" ++ osPathSplitLast url) = false) :
    (∀ q cc, Ev.write q cc ∈ (_download resp url path fs).events →
      q = path ++ "/" ++ osPathSplitLast url ++ "_tmp") ∧
    (∀ a b, Ev.move a b ∈ (_download resp url path fs).events →
      a = path ++ "/" ++ osPathSplitLast url ++ "_tmp" ∧
      b = path ++ "/" ++ osPathSplitLast url) ∧
    ((_download resp url path fs).fs.files (path ++ "/" ++ osPathSplitLast url)
        ≠ fs.files (path ++ "/" ++ osPathSplitLast url) →
      (_download resp url path fs).events.getLast? =
        some (.move (path ++ "/" ++ osPathSplitLast url ++ "_tmp")
          (path ++ "/" ++ osPathSplitLast url))) ∧
    (fs.writeFile (path ++ "/" ++ osPathSplitLast url ++ "_tmp") c).pathExists
        (path ++ "/" ++ osPathSplitLast url) = false ∧
    (_download resp url path
        (fs.writeFile (path ++ "/" ++ osPathSplitLast url ++ "_tmp") c)).result
      = (_download resp url path fs).result ∧
    (_download resp url path
        (fs.writeFile (path ++ "/" ++ osPathSplitLast url ++ "_tmp") c)).gets
      = (_download resp url path fs).gets ∧
    (_download resp url path
        (fs.writeFile (path ++ "/" ++ osPathSplitLast url ++ "_tmp") c)).fs.dirs
      = (_download resp url path fs).fs.dirs ∧
    (∀ q, q ≠ path ++ "/" ++ osPathSplitLast url ++ "_tmp" →
      (_download resp url path
          (fs.writeFile (path ++ "/" ++ osPathSplitLast url ++ "_tmp") c)).fs.files
          q
        = (_download resp url path fs).fs.files q) := by
  set FULL := path ++ "/" ++ osPathSplitLast url with hFULL
  have hTF : FULL ++ "_tmp" ≠ FULL := tmpname_ne_full FULL
  have hFT : FULL ≠ FULL ++ "_tmp" := fun h => hTF h.symm
  have hPT : path ≠ FULL ++ "_tmp" :=
    fun h => tmpname_ne_path path (osPathSplitLast url) h.symm
  have hPF : path ≠ FULL :=
    fun h => fullname_ne_path path (osPathSplitLast url) h.symm
  have hW1 : (fs.writeFile (FULL ++ "_tmp") c).pathExists FULL = false := by
    rw [writeFile_pathExists_other fs _ c FULL hFT]; exact hfull
  have hW2 : (fs.writeFile (FULL ++ "_tmp") c).pathExists path =
      fs.pathExists path := writeFile_pathExists_other fs _ c path hPT
  by_cases hp : fs.pathExists path = true
  · rcases download_char_dir resp url path fs hp with
      ⟨h1, _⟩ | ⟨_, hs, houtB⟩ | ⟨_, hs, houtB⟩
    · rw [h1] at hfull; cases hfull
    · -- non-200 response: a GET and nothing else
      rcases download_char_dir resp url path
          (fs.writeFile (FULL ++ "_tmp") c) (hW2.trans hp) with
        ⟨h1, _⟩ | ⟨_, _, houtP⟩ | ⟨_, hs', _⟩
      · rw [hW1] at h1; cases h1
      · refine ⟨?_, ?_, ?_, hW1, ?_, ?_, ?_, ?_⟩
        · intro q cc hm; rw [houtB] at hm; simp at hm
        · intro a b hm; rw [houtB] at hm; simp at hm
        · intro hne; rw [houtB] at hne; exact absurd rfl hne
        · rw [houtB, houtP]
        · rw [houtB, houtP]
        · rw [houtB, houtP]; rfl
        · intro q hq
          rw [houtB, houtP]
          exact writeFile_files_other fs _ c q hq
      · exact absurd hs' hs
    · -- 200 response: stream to _tmp, then the single move
      rcases download_char_dir resp url path
          (fs.writeFile (FULL ++ "_tmp") c) (hW2.trans hp) with
        ⟨h1, _⟩ | ⟨_, hs', _⟩ | ⟨_, _, houtP⟩
      · rw [hW1] at h1; cases h1
      · exact absurd hs hs'
      · refine ⟨?_, ?_, ?_, hW1, ?_, ?_, ?_, ?_⟩
        · intro q cc hm; rw [houtB] at hm; simp at hm; exact hm.1
        · intro a b hm; rw [houtB] at hm; simp at hm; exact hm
        · intro _; rw [houtB]; rfl
        · rw [houtB, houtP]
        · rw [houtB, houtP]
        · rw [houtB, houtP]; rfl
        · intro q hq
          rw [houtB, houtP]
          by_cases hqF : q = FULL
          · subst hqF
            rw [writeMove_files_full, writeMove_files_full]
          · rw [writeMove_files_other _ _ _ q hqF hq,
              writeMove_files_other _ _ _ q hqF hq]
            exact writeFile_files_other fs _ c q hq
  · rw [Bool.not_eq_true] at hp
    have hp' : (fs.writeFile (FULL ++ "_tmp") c).pathExists path = false :=
      hW2.trans hp
    have hMF : (fs.makedirs path).pathExists FULL = false := by
      rw [hFULL, makedirs_pathExists_fullname]; exact hfull
    have hMFP : ((fs.writeFile (FULL ++ "_tmp") c).makedirs path).pathExists
        FULL = false := by
      rw [hFULL, makedirs_pathExists_fullname, ← hFULL]; exact hW1
    rcases download_char_mk resp url path fs hp with
      ⟨h1, _⟩ | ⟨_, hs, houtB⟩ | ⟨_, hs, houtB⟩
    · rw [h1] at hMF; cases hMF
    · rcases download_char_mk resp url path
          (fs.writeFile (FULL ++ "_tmp") c) hp' with
        ⟨h1, _⟩ | ⟨_, _, houtP⟩ | ⟨_, hs', _⟩
      · rw [h1] at hMFP; cases hMFP
      · refine ⟨?_, ?_, ?_, hW1, ?_, ?_, ?_, ?_⟩
        · intro q cc hm; rw [houtB] at hm; simp at hm
        · intro a b hm; rw [houtB] at hm; simp at hm
        · intro hne; rw [houtB] at hne; exact absurd rfl hne
        · rw [houtB, houtP]
        · rw [houtB, houtP]
        · rw [houtB, houtP]; rfl
        · intro q hq
          rw [houtB, houtP]
          exact writeFile_files_other fs _ c q hq
      · exact absurd hs' hs
    · rcases download_char_mk resp url path
          (fs.writeFile (FULL ++ "_tmp") c) hp' with
        ⟨h1, _⟩ | ⟨_, hs', _⟩ | ⟨_, _, houtP⟩
      · rw [h1] at hMFP; cases hMFP
      · exact absurd hs hs'
      · refine ⟨?_, ?_, ?_, hW1, ?_, ?_, ?_, ?_⟩
        · intro q cc hm; rw [houtB] at hm; simp at hm; exact hm.1
        · intro a b hm; rw [houtB] at hm; simp at hm; exact hm
        · intro _; rw [houtB]; rfl
        · rw [houtB, houtP]
        · rw [houtB, houtP]
        · rw [houtB, houtP]; rfl
        · intro q hq
          rw [houtB, houtP]
          by_cases hqF : q = FULL
          · subst hqF
            rw [writeMove_files_full, writeMove_files_full]
          · rw [writeMove_files_other _ _ _ q hqF hq,
              writeMove_files_other _ _ _ q hqF hq]
            exact writeFile_files_other fs _ c q hq

/-- C3 witness at a concrete 200-response input. -/
theorem atomic_promotion_witness :
    emptyFS.pathExists ("/p" ++ "/" ++ osPathSplitLast "https://h/m.tar")
        = false ∧
    (emptyFS.writeFile
        ("/p" ++ "/" ++ osPathSplitLast "https://h/m.tar" ++ "_tmp")
        "half").pathExists
      ("/p" ++ "/" ++ osPathSplitLast "https://h/m.tar") = false :=
  ⟨rfl,
   (atomic_promotion (fun _ => ⟨200, "B"⟩) "https://h/m.tar" "/p" emptyFS
     "half" rfl).2.2.2.1⟩

/-! ### Claim C8: `get` with `decompress = false` -/

/-- C8: `get("ResNet50", "/tmp/models", decompress=False)` with a
successful download performs no extraction or merge (the `_decompress`
stage is never consulted — the outcome is the same for every possible
extraction function), issues one GET, and its only filesystem effect is
creating the destination directory and placing the raw archive at
`/tmp/models/ResNet50_pretrained.tar`. -/
theorem get_no_decompress (resp : Nat → Response)
    (decompFn decompFn' : String → FS → Except DecompErr FS) (fs : FS)
    (h200 : (resp 0).status = 200)
    (hfull : fs.pathExists "/tmp/models/ResNet50_pretrained.tar" = false)
    (htmp : fs.files "/tmp/models/ResNet50_pretrained.tar_tmp" = none)
    (hpfile : fs.files "/tmp/models" = none) :
    (get resp decompFn "ResNet50" "/tmp/models" false fs).result =
      GetResult.ok ∧
    (get resp decompFn "ResNet50" "/tmp/models" false fs).extracted = false ∧
    (get resp decompFn "ResNet50" "/tmp/models" false fs).gets = 1 ∧
    get resp decompFn "ResNet50" "/tmp/models" false fs =
      get resp decompFn' "ResNet50" "/tmp/models" false fs ∧
    (get resp decompFn "ResNet50" "/tmp/models" false fs).fs.files
      "/tmp/models/ResNet50_pretrained.tar" = some (resp 0).body ∧
    (∀ q, q ≠ "/tmp/models/ResNet50_pretrained.tar" →
      (get resp decompFn "ResNet50" "/tmp/models" false fs).fs.files q =
        fs.files q) ∧
    (get resp decompFn "ResNet50" "/tmp/models" false fs).fs.dirs
      "/tmp/models" = true ∧
    (∀ q, q ≠ "/tmp/models" →
      (get resp decompFn "ResNet50" "/tmp/models" false fs).fs.dirs q =
        fs.dirs q) := by
  have hsplit : "/tmp/models" ++ "/" ++ osPathSplitLast (_get_url "ResNet50")
      = "/tmp/models/ResNet50_pretrained.tar" := rfl
  have hT : ("/tmp/models/ResNet50_pretrained.tar_tmp" : String) =
      "/tmp/models/ResNet50_pretrained.tar" ++ "_tmp" := rfl
  by_cases hp : fs.pathExists "/tmp/models" = true
  · rcases download_char_dir resp (_get_url "ResNet50") "/tmp/models" fs hp
      with ⟨h1, _⟩ | ⟨_, hs, _⟩ | ⟨_, _, houtB⟩
    · rw [hsplit] at h1; rw [h1] at hfull; cases hfull
    · exact absurd h200 hs
    · rw [hsplit] at houtB
      have hg : ∀ dFn : String → FS → Except DecompErr FS,
          get resp dFn "ResNet50" "/tmp/models" false fs =
            ⟨.ok,
             (fs.writeFile ("/tmp/models/ResNet50_pretrained.tar" ++ "_tmp")
                 (resp 0).body).moveFile
               ("/tmp/models/ResNet50_pretrained.tar" ++ "_tmp")
               "/tmp/models/ResNet50_pretrained.tar",
             1, false⟩ := by
        intro dFn
        simp only [get]
        rw [houtB]
        rfl
      have hdirs : fs.dirs "/tmp/models" = true := by
        simp [FS.pathExists, hpfile] at hp
        exact hp
      refine ⟨by rw [hg decompFn], by rw [hg decompFn], by rw [hg decompFn],
        by rw [hg decompFn, hg decompFn'], ?_, ?_, ?_, ?_⟩
      · rw [hg decompFn]
        exact writeMove_files_full fs _ _
      · intro q hq
        rw [hg decompFn]
        by_cases hqt : q = "/tmp/models/ResNet50_pretrained.tar" ++ "_tmp"
        · subst hqt
          rw [writeMove_files_tmp]
          exact htmp.symm
        · exact writeMove_files_other fs _ _ q hq hqt
      · rw [hg decompFn]
        exact hdirs
      · intro q hq
        rw [hg decompFn]
        rfl
  · rw [Bool.not_eq_true] at hp
    have hMF : (fs.makedirs "/tmp/models").pathExists
        ("/tmp/models" ++ "/" ++ osPathSplitLast (_get_url "ResNet50")) =
        false := by
      rw [makedirs_pathExists_fullname, hsplit]
      exact hfull
    rcases download_char_mk resp (_get_url "ResNet50") "/tmp/models" fs hp
      with ⟨h1, _⟩ | ⟨_, hs, _⟩ | ⟨_, _, houtB⟩
    · rw [h1] at hMF; cases hMF
    · exact absurd h200 hs
    · rw [hsplit] at houtB
      have hg : ∀ dFn : String → FS → Except DecompErr FS,
          get resp dFn "ResNet50" "/tmp/models" false fs =
            ⟨.ok,
             ((fs.makedirs "/tmp/models").writeFile
                 ("/tmp/models/ResNet50_pretrained.tar" ++ "_tmp")
                 (resp 0).body).moveFile
               ("/tmp/models/ResNet50_pretrained.tar" ++ "_tmp")
               "/tmp/models/ResNet50_pretrained.tar",
             1, false⟩ := by
        intro dFn
        simp only [get]
        rw [houtB]
        rfl
      refine ⟨by rw [hg decompFn], by rw [hg decompFn], by rw [hg decompFn],
        by rw [hg decompFn, hg decompFn'], ?_, ?_, ?_, ?_⟩
      · rw [hg decompFn]
        exact writeMove_files_full _ _ _
      · intro q hq
        rw [hg decompFn]
        by_cases hqt : q = "/tmp/models/ResNet50_pretrained.tar" ++ "_tmp"
        · subst hqt
          rw [writeMove_files_tmp]
          exact htmp.symm
        · rw [writeMove_files_other _ _ _ q hq hqt]
          rfl
      · rw [hg decompFn]
        show ((fs.makedirs "/tmp/models").dirs "/tmp/models" : Bool) = true
        simp [FS.makedirs]
      · intro q hq
        rw [hg decompFn]
        show ((fs.makedirs "/tmp/models").dirs q : Bool) = fs.dirs q
        simp [FS.makedirs, hq]

/-- C8 witness at a concrete 200-response input on an empty filesystem. -/
theorem get_no_decompress_witness :
    (get (fun _ => ⟨200, "W"⟩) (fun _ fs => .ok fs) "ResNet50" "/tmp/models"
        false emptyFS).result = GetResult.ok ∧
    (get (fun _ => ⟨200, "W"⟩) (fun _ fs => .ok fs) "ResNet50" "/tmp/models"
        false emptyFS).extracted = false ∧
    (get (fun _ => ⟨200, "W"⟩) (fun _ fs => .ok fs) "ResNet50" "/tmp/models"
        false emptyFS).fs.files "/tmp/models/ResNet50_pretrained.tar" =
      some "W" := by
  have h := get_no_decompress (fun _ => ⟨200, "W"⟩) (fun _ fs => .ok fs)
    (fun _ fs => .error (.ioError "")) emptyFS rfl rfl rfl rfl
  exact ⟨h.1, h.2.1, h.2.2.2.2.1⟩

/-! ### Branch analysis of `_decompress` -/

theorem decompress_tar_branch (tarEx zipEx : String → List (String × FSNode))
    (fname : String) (d : List (String × FSNode))
    (h : "tar".data <:+: fname.data) :
    _decompress tarEx zipEx fname d =
      extractAndMerge tarEx (osPathSplitLast fname) (cleanupTmp d) := by
  simp only [_decompress]
  rw [if_pos ((strFind_nonneg_iff fname "tar").mpr h)]

theorem decompress_zip_branch (tarEx zipEx : String → List (String × FSNode))
    (fname : String) (d : List (String × FSNode))
    (h1 : ¬ ("tar".data <:+: fname.data)) (h2 : "zip".data <:+: fname.data) :
    _decompress tarEx zipEx fname d =
      extractAndMerge zipEx (osPathSplitLast fname) (cleanupTmp d) := by
  simp only [_decompress]
  rw [if_neg (fun hc => h1 ((strFind_nonneg_iff fname "tar").mp hc)),
    if_pos ((strFind_nonneg_iff fname "zip").mpr h2)]

theorem decompress_unsupported (tarEx zipEx : String → List (String × FSNode))
    (fname : String) (d : List (String × FSNode))
    (h1 : ¬ ("tar".data <:+: fname.data))
    (h2 : ¬ ("zip".data <:+: fname.data)) :
    _decompress tarEx zipEx fname d =
      ⟨.error (.typeError ("Unsupport compress file type " ++ fname)),
       cleanupTmp d⟩ := by
  simp only [_decompress]
  rw [if_neg (fun hc => h1 ((strFind_nonneg_iff fname "tar").mp hc)),
    if_neg (fun hc => h2 ((strFind_nonneg_iff fname "zip").mp hc))]

/-- Once a supported branch is taken, the failure (if any) is an I/O-layer
error, never the unsupported-format `TypeError`. -/
theorem extractAndMerge_result_not_typeError
    (ex : String → List (String × FSNode)) (aname : String)
    (d : List (String × FSNode)) (m : String) :
    (extractAndMerge ex aname d).result ≠ .error (.typeError m) := by
  cases h1 : lookupEntry d aname with
  | none => simp [extractAndMerge, h1]
  | some n =>
    cases n with
    | dir es => simp [extractAndMerge, h1]
    | file content =>
      cases h2 : lookupEntry d "tmp" with
      | none =>
        cases hm : mergeAll (ex content)
            (setEntry d "tmp" (.dir (ex content))) with
        | error e => simp [extractAndMerge, h1, h2, hm]
        | ok mgd => simp [extractAndMerge, h1, h2, hm]
      | some w =>
        cases w with
        | file c2 => simp [extractAndMerge, h1, h2]
        | dir es2 =>
          cases hm : mergeAll (ex content)
              (setEntry d "tmp" (.dir (ex content))) with
          | error e => simp [extractAndMerge, h1, h2, hm]
          | ok mgd => simp [extractAndMerge, h1, h2, hm]

theorem cleanupTmp_lookup_other (d : List (String × FSNode)) (k : String)
    (hk : k ≠ "tmp") :
    lookupEntry (cleanupTmp d) k = lookupEntry d k := by
  unfold cleanupTmp
  cases h : lookupEntry d "tmp" with
  | none => rfl
  | some n =>
    cases n with
    | file c => rfl
    | dir es => exact lookupEntry_setEntry_other d "tmp" k _ hk

theorem cleanupTmp_lookup_tmp_dir (d : List (String × FSNode))
    (es : List (String × FSNode))
    (h : lookupEntry d "tmp" = some (.dir es)) :
    lookupEntry (cleanupTmp d) "tmp" = some (.dir []) := by
  unfold cleanupTmp
  rw [h]
  exact lookupEntry_setEntry_self d "tmp" _

theorem cleanupTmp_eq_of_not_dir (d : List (String × FSNode))
    (h : ∀ es, lookupEntry d "tmp" ≠ some (.dir es)) :
    cleanupTmp d = d := by
  unfold cleanupTmp
  cases hl : lookupEntry d "tmp" with
  | none => rfl
  | some n =>
    cases n with
    | file c => rfl
    | dir es => exact absurd hl (h es)

/-! ### Claim C2: state after an unsupported-format failure -/

/-- C2 counterexample: with archive `/m/model.rar` (name contains neither
"tar" nor "zip") and a pre-existing staging directory `tmp` holding a
leftover file, the failed `_decompress` call does NOT leave the staging
directory untouched: it is destroyed and recreated empty before the
format check fails. -/
theorem unsupported_format_counterexample :
    ("tar".data <:+: "/m/model.rar".data → False) ∧
    ("zip".data <:+: "/m/model.rar".data → False) ∧
    (_decompress (fun _ => []) (fun _ => []) "/m/model.rar"
        [("model.rar", .file "B"),
         ("tmp", .dir [("leftover", .file "X")])]).result =
      .error (.typeError "Unsupport compress file type /m/model.rar") ∧
    lookupEntry (_decompress (fun _ => []) (fun _ => []) "/m/model.rar"
        [("model.rar", .file "B"),
         ("tmp", .dir [("leftover", .file "X")])]).entries "tmp" =
      some (.dir []) ∧
    lookupEntry [("model.rar", FSNode.file "B"),
        ("tmp", FSNode.dir [("leftover", FSNode.file "X")])] "tmp" =
      some (.dir [("leftover", .file "X")]) ∧
    (FSNode.dir [] = FSNode.dir [("leftover", FSNode.file "X")] → False) := by
  refine ⟨by decide, by decide, rfl, rfl, rfl, ?_⟩
  intro h
  injection h with h'
  exact List.noConfusion h'

/-- C2 (amended): when the archive name contains neither "tar" nor "zip",
`_decompress` fails with the unsupported-format `TypeError`; the archive
file and every other entry are untouched, but a pre-existing staging
directory `tmp` is destroyed and recreated empty before the failure; when
no staging directory existed, the state is fully untouched. -/
theorem unsupported_format_state (tarEx zipEx : String → List (String × FSNode))
    (fname : String) (d : List (String × FSNode))
    (h1 : ¬ ("tar".data <:+: fname.data))
    (h2 : ¬ ("zip".data <:+: fname.data)) :
    (_decompress tarEx zipEx fname d).result =
      .error (.typeError ("Unsupport compress file type " ++ fname)) ∧
    (∀ k, k ≠ "tmp" →
      lookupEntry (_decompress tarEx zipEx fname d).entries k =
        lookupEntry d k) ∧
    (∀ es, lookupEntry d "tmp" = some (.dir es) →
      lookupEntry (_decompress tarEx zipEx fname d).entries "tmp" =
        some (.dir [])) ∧
    ((∀ es, lookupEntry d "tmp" ≠ some (.dir es)) →
      (_decompress tarEx zipEx fname d).entries = d) := by
  rw [decompress_unsupported tarEx zipEx fname d h1 h2]
  exact ⟨rfl, fun k hk => cleanupTmp_lookup_other d k hk,
    fun es hes => cleanupTmp_lookup_tmp_dir d es hes,
    fun hno => cleanupTmp_eq_of_not_dir d hno⟩

/-- C2 (amended) witness at a concrete unsupported-format input. -/
theorem unsupported_format_state_witness :
    (_decompress (fun _ => []) (fun _ => []) "a.rar"
        [("a.rar", FSNode.file "B"),
         ("tmp", FSNode.dir [("x", FSNode.file "y")])]).result =
      .error (.typeError ("Unsupport compress file type " ++ "a.rar")) :=
  (unsupported_format_state (fun _ => []) (fun _ => []) "a.rar"
    [("a.rar", FSNode.file "B"), ("tmp", FSNode.dir [("x", FSNode.file "y")])]
    (by decide) (by decide)).1

/-! ### Claims C7 and C10: archive-kind classification -/

/-- C7 counterexample: the name "model.tar.zip" contains "zip", yet
`_decompress` unpacks it as a TAR archive: with a tar extractor producing
entry `t` and a zip extractor producing entry `z`, the result holds `t`;
the same extractors on a zip-only name produce `z`, and the two results
differ. -/
theorem classification_counterexample :
    ("zip".data <:+: "model.tar.zip".data) ∧
    _decompress (fun _ => [("t", .file "T")]) (fun _ => [("z", .file "Z")])
        "model.tar.zip" [("model.tar.zip", .file "B")] =
      ⟨.ok (), [("t", .file "T")]⟩ ∧
    _decompress (fun _ => [("t", .file "T")]) (fun _ => [("z", .file "Z")])
        "model.zip" [("model.zip", .file "B")] =
      ⟨.ok (), [("z", .file "Z")]⟩ ∧
    (FSNode.file "T" = FSNode.file "Z" → False) := by
  refine ⟨by decide, rfl, rfl, ?_⟩
  intro h
  injection h with h'
  exact absurd h' (by decide)

/-- C7 (amended/corrected): classification tests "tar" before "zip": any
name containing "tar" is unpacked as a tar archive; any name containing
"zip" but NOT "tar" is unpacked as a zip archive; and `_decompress` raises
the unsupported-format `TypeError` exactly when the name contains neither
substring. -/
theorem archive_classification (tarEx zipEx : String → List (String × FSNode))
    (fname : String) (d : List (String × FSNode)) :
    (("tar".data <:+: fname.data) →
      _decompress tarEx zipEx fname d =
        extractAndMerge tarEx (osPathSplitLast fname) (cleanupTmp d)) ∧
    (¬ ("tar".data <:+: fname.data) → ("zip".data <:+: fname.data) →
      _decompress tarEx zipEx fname d =
        extractAndMerge zipEx (osPathSplitLast fname) (cleanupTmp d)) ∧
    ((∃ m, (_decompress tarEx zipEx fname d).result =
        .error (.typeError m)) ↔
      (¬ ("tar".data <:+: fname.data) ∧ ¬ ("zip".data <:+: fname.data))) := by
  refine ⟨decompress_tar_branch tarEx zipEx fname d,
    fun h1 h2 => decompress_zip_branch tarEx zipEx fname d h1 h2, ?_, ?_⟩
  · rintro ⟨m, hm⟩
    by_cases h1 : "tar".data <:+: fname.data
    · rw [decompress_tar_branch tarEx zipEx fname d h1] at hm
      exact absurd hm (extractAndMerge_result_not_typeError tarEx _ _ m)
    · by_cases h2 : "zip".data <:+: fname.data
      · rw [decompress_zip_branch tarEx zipEx fname d h1 h2] at hm
        exact absurd hm (extractAndMerge_result_not_typeError zipEx _ _ m)
      · exact ⟨h1, h2⟩
  · rintro ⟨h1, h2⟩
    exact ⟨"Unsupport compress file type " ++ fname,
      by rw [decompress_unsupported tarEx zipEx fname d h1 h2]⟩

/-- C7 (amended) witness: a concrete tar-named archive takes the tar
branch. -/
theorem archive_classification_witness :
    _decompress (fun _ => [("t", FSNode.file "T")]) (fun _ => [])
        "m.tar" [("m.tar", FSNode.file "B")] =
      extractAndMerge (fun _ => [("t", FSNode.file "T")])
        (osPathSplitLast "m.tar")
        (cleanupTmp [("m.tar", FSNode.file "B")]) :=
  (archive_classification (fun _ => [("t", FSNode.file "T")]) (fun _ => [])
    "m.tar" [("m.tar", FSNode.file "B")]).1 (by decide)

/-- C10: archive-kind classification examines the entire path string, not
only the final component, and tests "tar" before "zip": whenever "tar"
occurs in the directory part (regardless of the filename) or in the
filename (even together with "zip"), the call takes the tar branch, and
the zip extractor is irrelevant to the outcome. -/
theorem classification_whole_path
    (tarEx zipEx zipEx' : String → List (String × FSNode))
    (dpath fname : String) (d : List (String × FSNode))
    (h : ("tar".data <:+: dpath.data) ∨ ("tar".data <:+: fname.data)) :
    _decompress tarEx zipEx (dpath ++ "/" ++ fname) d =
      extractAndMerge tarEx (osPathSplitLast (dpath ++ "/" ++ fname))
        (cleanupTmp d) ∧
    _decompress tarEx zipEx (dpath ++ "/" ++ fname) d =
      _decompress tarEx zipEx' (dpath ++ "/" ++ fname) d := by
  have hdata : (dpath ++ "/" ++ fname).data =
      dpath.data ++ "/".data ++ fname.data := by
    rw [String.data_append, String.data_append]
  have hinf : "tar".data <:+: (dpath ++ "/" ++ fname).data := by
    rw [hdata]
    rcases h with h | h
    · exact h.trans
        ((List.prefix_append dpath.data "/".data).trans
          (List.prefix_append (dpath.data ++ "/".data) fname.data)).isInfix
    · exact h.trans (List.suffix_append (dpath.data ++ "/".data)
        fname.data).isInfix
  exact ⟨decompress_tar_branch tarEx zipEx _ d hinf,
    by rw [decompress_tar_branch tarEx zipEx _ d hinf,
      decompress_tar_branch tarEx zipEx' _ d hinf]⟩

/-- C10 witness: an archive under a directory whose path contains "tar" is
treated as a tar archive even though its filename says "zip". -/
theorem classification_whole_path_witness :
    _decompress (fun _ => [("t", FSNode.file "T")])
        (fun _ => [("z", FSNode.file "Z")])
        ("/data/tarballs" ++ "/" ++ "model.zip") [] =
      extractAndMerge (fun _ => [("t", FSNode.file "T")])
        (osPathSplitLast ("/data/tarballs" ++ "/" ++ "model.zip"))
        (cleanupTmp []) :=
  (classification_whole_path (fun _ => [("t", FSNode.file "T")])
    (fun _ => [("z", FSNode.file "Z")]) (fun _ => [])
    "/data/tarballs" "model.zip" [] (Or.inl (by decide))).1

end ModelZoo
